import Mathlib

/-!
Verification of `data_utils` (dollar-bar construction and schema validation).

Shallow embedding of `src/data_utils/dollar_bars.py` and
`src/data_utils/validation.py`.  Python floats are modelled as `ℚ` (the
claims under study concern exact accumulation arithmetic, index bookkeeping
and control flow, none of which depend on rounding); timestamps are
modelled as `ℤ`; Python ints as `ℤ` or `ℕ` as appropriate.
-/

/-- One input tick: a row of the tick DataFrame, with its `price`,
`volume` and `timestamp` columns. -/
structure Tick where
  price : ℚ
  volume : ℚ
  timestamp : ℤ
deriving DecidableEq, Repr, Inhabited

/-- One output bar: the dict appended to `bars` in `DollarBars.create`,
fields in the source's insertion order. `open` is a Lean keyword, hence
the field name `open_`. -/
structure Bar where
  timestamp : ℤ
  open_ : ℚ
  high : ℚ
  low : ℚ
  close : ℚ
  volume : ℚ
  dollar_volume : ℚ
deriving DecidableEq, Repr

/-- The `DollarBars` object: `__init__` merely stores both arguments
(`self.threshold = threshold; self.min_ticks = min_ticks`), with no
validation of either. -/
structure DollarBars where
  threshold : ℚ
  min_ticks : ℤ
deriving DecidableEq, Repr

/-- Running sums of a list (`np.cumsum` / `Series.cumsum`): entry `j` is
the sum of entries `0..j` of the input. -/
def cumsums (l : List ℚ) : List ℚ :=
  (l.foldl (fun (acc : ℚ × List ℚ) x => (acc.1 + x, acc.2 ++ [acc.1 + x]))
    (0, [])).2

namespace DollarBars

/-- `dollar_volumes = prices * volumes` (elementwise). -/
def dollarVolumes (ticks : List Tick) : List ℚ :=
  ticks.map (fun t => t.price * t.volume)

/-- `cum_dollar_volume = np.cumsum(dollar_volumes)`, computed once before
the loop. -/
def cum_dollar_volume (ticks : List Tick) : List ℚ :=
  cumsums (dollarVolumes ticks)

/-- `cum_dollar_volume[j]`: the sum of `price*volume` over ticks `0..j`
inclusive (every access in the loop has `j < len(data)`, so the `0`
fallback of `getD` is never taken). -/
def cumDV (ticks : List Tick) (j : ℕ) : ℚ :=
  (cum_dollar_volume ticks).getD j 0

/-- The Python slice `data[a : b+1]`. -/
def slice (ticks : List Tick) (a b : ℕ) : List Tick :=
  (ticks.drop a).take (b + 1 - a)

/-- `max()` of the price column of a slice (the slice is nonempty at every
use site in the source; `0` is a dummy value for `[]`). -/
def maxPrice : List Tick → ℚ
  | [] => 0
  | t :: ts => ts.foldl (fun m u => max m u.price) t.price

/-- `min()` of the price column of a slice. -/
def minPrice : List Tick → ℚ
  | [] => 0
  | t :: ts => ts.foldl (fun m u => min m u.price) t.price

/-- The bar dict built in the body of the `if` in `DollarBars.create`:
`open = bar_data[price][0]`, `high = .max()`, `low = .min()`,
`close = bar_data[price][-1]`, `volume = .sum()`,
`dollar_volume = current_cum_dv`, `timestamp = bar_data[timestamp][0]`. -/
def mkBar (bar_data : List Tick) (current_cum_dv : ℚ) : Bar :=
  { timestamp := (bar_data.map Tick.timestamp).headI
    open_ := (bar_data.map Tick.price).headI
    high := maxPrice bar_data
    low := minPrice bar_data
    close := (bar_data.map Tick.price).getLastD 0
    volume := (bar_data.map Tick.volume).sum
    dollar_volume := current_cum_dv }

/-- One iteration of the `for i in range(len(data))` loop of
`DollarBars.create`.  The state is `(current_bar_start, bars)`.
`current_cum_dv = cum_dollar_volume[i] - cum_dollar_volume[current_bar_start]`;
on `current_cum_dv >= threshold and (i - current_bar_start) >= min_ticks`
the bar over `data[current_bar_start : i+1]` is appended and
`current_bar_start` becomes `i + 1`. -/
def stepBar (cfg : DollarBars) (ticks : List Tick) (s : ℕ × List Bar) (i : ℕ) :
    ℕ × List Bar :=
  let current_cum_dv := cumDV ticks i - cumDV ticks s.1
  if cfg.threshold ≤ current_cum_dv ∧ cfg.min_ticks ≤ (i : ℤ) - (s.1 : ℤ) then
    (i + 1, s.2 ++ [mkBar (slice ticks s.1 i) current_cum_dv])
  else s

/-- The whole loop of `DollarBars.create`, run over indices `0..n-1`,
starting from `current_bar_start = 0`, `bars = []`. -/
def barState (cfg : DollarBars) (ticks : List Tick) (n : ℕ) : ℕ × List Bar :=
  (List.range n).foldl (stepBar cfg ticks) (0, [])

/-- `DollarBars.create`, as the list of bar records produced by the loop
(the wrapping of `bars` into a DataFrame is modelled by `createResult`
below). -/
def create (cfg : DollarBars) (ticks : List Tick) : List Bar :=
  (barState cfg ticks ticks.length).2

/-- Instrumented copy of the loop that records, instead of each emitted
bar, the index segment `(current_bar_start, i)` it was built from. -/
def stepSeg (cfg : DollarBars) (ticks : List Tick) (s : ℕ × List (ℕ × ℕ))
    (i : ℕ) : ℕ × List (ℕ × ℕ) :=
  if cfg.threshold ≤ cumDV ticks i - cumDV ticks s.1 ∧
      cfg.min_ticks ≤ (i : ℤ) - (s.1 : ℤ) then
    (i + 1, s.2 ++ [(s.1, i)])
  else s

def segState (cfg : DollarBars) (ticks : List Tick) (n : ℕ) :
    ℕ × List (ℕ × ℕ) :=
  (List.range n).foldl (stepSeg cfg ticks) (0, [])

/-- The index segments of the bars emitted by `create`. -/
def segments (cfg : DollarBars) (ticks : List Tick) : List (ℕ × ℕ) :=
  (segState cfg ticks ticks.length).2

/-- The constituent tick run of each emitted bar: `data[start : i+1]` for
each closing segment, in emission order. -/
def barRuns (cfg : DollarBars) (ticks : List Tick) : List (List Tick) :=
  (segments cfg ticks).map (fun p => slice ticks p.1 p.2)

/-- Value of `current_bar_start` when the loop finishes: the start index
of the dropped trailing partial segment. -/
def trailingStart (cfg : DollarBars) (ticks : List Tick) : ℕ :=
  (segState cfg ticks ticks.length).1

/-- The trailing partial segment that the bounded mode silently drops. -/
def trailing (cfg : DollarBars) (ticks : List Tick) : List Tick :=
  ticks.drop (trailingStart cfg ticks)

end DollarBars

/-- The polars data types that appear in the repository
(`pl.Datetime`, `pl.Float64`, `pl.Int64`, `pl.Utf8`). -/
inductive PolarsDType where
  | datetime
  | float64
  | int64
  | utf8
deriving DecidableEq, Repr

/-- How a polars data type renders inside an f-string (its `repr`). -/
def PolarsDType.name : PolarsDType → String
  | .datetime => "Datetime"
  | .float64 => "Float64"
  | .int64 => "Int64"
  | .utf8 => "String"

/-- The value returned by `DollarBars.create` after the loop.  The source
has two branches: `if bars: return pl.DataFrame(bars)` — a frame whose
rows are the bar dicts — and an `else` branch that calls
`pl.DataFrame({...})` on a dict whose *values* are polars data type
objects (`pl.Datetime`, `pl.Float64`, ...), i.e. the type mapping is
passed as column data, not as a `schema=` argument. -/
inductive CreateResult where
  | df : List Bar → CreateResult
  | dtypeValues : List (String × PolarsDType) → CreateResult
deriving DecidableEq, Repr

/-- The column-name-to-dtype dict literal of the `else` branch of
`DollarBars.create`, in the source's insertion order. -/
def barSchemaDict : List (String × PolarsDType) :=
  [("timestamp", .datetime), ("open", .float64), ("high", .float64),
   ("low", .float64), ("close", .float64), ("volume", .float64),
   ("dollar_volume", .float64)]

namespace DollarBars

/-- The full return value of `DollarBars.create`, including the final
`if bars: ... else: ...` branch. -/
def createResult (cfg : DollarBars) (ticks : List Tick) : CreateResult :=
  let bars := create cfg ticks
  if bars.isEmpty then .dtypeValues barSchemaDict
  else .df bars

/-- A row of the LazyFrame returned by `DollarBars.create_lazy`: the
original tick columns plus the two columns the method appends. -/
structure LazyRow where
  price : ℚ
  volume : ℚ
  timestamp : ℤ
  dollar_volume : ℚ
  cum_dollar_volume : ℚ
deriving DecidableEq, Repr

/-- `DollarBars.create_lazy`: appends a `dollar_volume` column
(`price * volume`) and a `cum_dollar_volume` column (its cumsum) and
returns the frame.  No grouping into bars ever happens (the source's own
comment: "This is a simplified version"). -/
def create_lazy (ticks : List Tick) : List LazyRow :=
  let dvs := ticks.map (fun t => t.price * t.volume)
  (ticks.zip (dvs.zip (cumsums dvs))).map
    (fun p => ⟨p.1.price, p.1.volume, p.1.timestamp, p.2.1, p.2.2⟩)

end DollarBars

/-- The error message `f"Missing column: {col}"` or
`f"Type mismatch for {col}: expected {expected_type}, got {actual_type}"`
for an expected column that fails validation (`p.2` is the expected
type, the lookup in `actual` the actual one). -/
def offendMsg (actual : List (String × PolarsDType))
    (p : String × PolarsDType) : String :=
  match actual.lookup p.1 with
  | none => "Missing column: " ++ p.1
  | some actual_type =>
      "Type mismatch for " ++ p.1 ++ ": expected " ++ p.2.name ++
        ", got " ++ actual_type.name

/-- `validate_schema(data, expected_schema)` from
`src/data_utils/validation.py`: iterate over `expected_schema.items()` in
order; on a column missing from `data.schema` return
`(False, "Missing column: ...")`; on a type mismatch return
`(False, "Type mismatch for ...")`; if the loop finishes, `(True, None)`.
`actual` is `data.schema` as an association list (column → dtype). -/
def validate_schema (actual : List (String × PolarsDType)) :
    List (String × PolarsDType) → Bool × Option String
  | [] => (true, none)
  | (col, expected_type) :: rest =>
    match actual.lookup col with
    | none => (false, some ("Missing column: " ++ col))
    | some actual_type =>
        if actual_type ≠ expected_type then
          (false, some ("Type mismatch for " ++ col ++ ": expected " ++
            expected_type.name ++ ", got " ++ actual_type.name))
        else validate_schema actual rest

/-! ## Concrete inputs used to evaluate the code -/

/-- Two ticks of the spec's Scenario A shape: constant price 100.0,
constant volume 1000 (dollar value 100000 per tick). -/
def twoTicks : List Tick := [⟨100, 1000, 0⟩, ⟨100, 1000, 1⟩]

/-- The spec's Scenario A input: 100 ticks, constant price 100.0,
constant volume 1000, consecutive timestamps. -/
def scenarioATicks : List Tick :=
  (List.range 100).map (fun k : ℕ => ⟨100, 1000, (k : ℤ)⟩)

/-- An input whose first tick has a non-positive price. -/
def badPriceTicks : List Tick := [⟨-5, 10, 0⟩, ⟨100, 1, 1⟩]

/-- A single low-value tick that never reaches a 50000 threshold. -/
def oneSmallTick : List Tick := [⟨1, 1, 0⟩]

/-! ## Structural lemmas about the `create` loop -/

namespace DollarBars

/-- The bar built from a recorded segment. -/
def mkBarOf (ticks : List Tick) (p : ℕ × ℕ) : Bar :=
  mkBar (slice ticks p.1 p.2) (cumDV ticks p.2 - cumDV ticks p.1)

/-- The closing condition of the source loop, as a predicate on the
current segment `(current_bar_start, i)`:
`current_cum_dv >= threshold and (i - current_bar_start) >= min_ticks`,
with `current_cum_dv = cum_dollar_volume[i] - cum_dollar_volume[start]`. -/
def closeCond (cfg : DollarBars) (ticks : List Tick) (a b : ℕ) : Prop :=
  cfg.threshold ≤ cumDV ticks b - cumDV ticks a ∧
    cfg.min_ticks ≤ (b : ℤ) - (a : ℤ)

instance (cfg : DollarBars) (ticks : List Tick) (a b : ℕ) :
    Decidable (closeCond cfg ticks a b) := by unfold closeCond; infer_instance

lemma barState_eq_segState (cfg : DollarBars) (ticks : List Tick) :
    ∀ n, barState cfg ticks n =
      ((segState cfg ticks n).1,
        (segState cfg ticks n).2.map (mkBarOf ticks)) := by
  intro n
  induction n with
  | zero => rfl
  | succ n ih =>
    unfold barState segState at ih ⊢
    rw [List.range_succ, List.foldl_append, List.foldl_append]
    simp only [List.foldl_cons, List.foldl_nil]
    rw [ih]
    set s := (List.range n).foldl (stepSeg cfg ticks) (0, []) with hs
    simp only [stepBar, stepSeg]
    by_cases h : cfg.threshold ≤ cumDV ticks n - cumDV ticks s.1 ∧
        cfg.min_ticks ≤ (n : ℤ) - (s.1 : ℤ)
    · rw [if_pos h, if_pos h]
      simp [mkBarOf]
    · rw [if_neg h, if_neg h]

lemma segState_inv (cfg : DollarBars) (ticks : List Tick) :
    ∀ n, (segState cfg ticks n).1 ≤ n ∧
      ((segState cfg ticks n).2.map (fun p => slice ticks p.1 p.2)).flatten
        = ticks.take (segState cfg ticks n).1 ∧
      ∀ p ∈ (segState cfg ticks n).2,
        p.1 ≤ p.2 ∧ p.2 < n ∧ closeCond cfg ticks p.1 p.2 := by
  intro n
  induction n with
  | zero => exact ⟨le_refl 0, rfl, by intro p hp; simp [segState] at hp⟩
  | succ n ih =>
    obtain ⟨hle, hjoin, hmem⟩ := ih
    unfold segState at hle hjoin hmem ⊢
    rw [List.range_succ, List.foldl_append]
    simp only [List.foldl_cons, List.foldl_nil]
    set s := (List.range n).foldl (stepSeg cfg ticks) (0, []) with hs
    unfold stepSeg
    by_cases h : cfg.threshold ≤ cumDV ticks n - cumDV ticks s.1 ∧
        cfg.min_ticks ≤ (n : ℤ) - (s.1 : ℤ)
    · rw [if_pos h]
      refine ⟨le_refl _, ?_, ?_⟩
      · have key : ticks.take s.1 ++ slice ticks s.1 n = ticks.take (n + 1) := by
          have harith : s.1 + (n + 1 - s.1) = n + 1 := by omega
          rw [← harith, List.take_add]
          rfl
        simp only [List.map_append, List.map_cons, List.map_nil,
          List.flatten_append, hjoin, List.flatten_cons, List.flatten_nil,
          List.append_nil]
        exact key
      · intro p hp
        rcases List.mem_append.1 hp with hp | hp
        · obtain ⟨h1, h2, h3⟩ := hmem p hp
          exact ⟨h1, Nat.lt_succ_of_lt h2, h3⟩
        · simp only [List.mem_singleton] at hp
          subst hp
          exact ⟨hle, Nat.lt_succ_self n, h⟩
    · rw [if_neg h]
      refine ⟨Nat.le_succ_of_le hle, hjoin, ?_⟩
      intro p hp
      obtain ⟨h1, h2, h3⟩ := hmem p hp
      exact ⟨h1, Nat.lt_succ_of_lt h2, h3⟩

/-- While the loop runs, the closing condition never held at any index of
the still-open segment (otherwise `current_bar_start` would have moved). -/
lemma segState_no_close_in_tail (cfg : DollarBars) (ticks : List Tick) :
    ∀ n j, (segState cfg ticks n).1 ≤ j → j < n →
      ¬ closeCond cfg ticks (segState cfg ticks n).1 j := by
  intro n
  induction n with
  | zero =>
      intro j h1 h2
      omega
  | succ n ih =>
      intro j h1 h2
      unfold segState at h1 ⊢
      rw [List.range_succ, List.foldl_append] at h1 ⊢
      simp only [List.foldl_cons, List.foldl_nil] at h1 ⊢
      set s := (List.range n).foldl (stepSeg cfg ticks) (0, []) with hs
      unfold stepSeg at h1 ⊢
      by_cases h : cfg.threshold ≤ cumDV ticks n - cumDV ticks s.1 ∧
          cfg.min_ticks ≤ (n : ℤ) - (s.1 : ℤ)
      · rw [if_pos h] at h1 ⊢
        exact absurd (show n + 1 ≤ j from h1) (by omega)
      · rw [if_neg h] at h1 ⊢
        rcases Nat.lt_succ_iff_lt_or_eq.1 h2 with hj | hj
        · exact ih j h1 hj
        · subst hj
          exact fun hc => h hc

lemma no_close_in_trailing (cfg : DollarBars) (ticks : List Tick) :
    ∀ j, trailingStart cfg ticks ≤ j → j < ticks.length →
      ¬ closeCond cfg ticks (trailingStart cfg ticks) j :=
  segState_no_close_in_tail cfg ticks ticks.length

/-- `create` is the per-segment bar construction mapped over the recorded
segments. -/
lemma create_eq_map_segments (cfg : DollarBars) (ticks : List Tick) :
    create cfg ticks = (segments cfg ticks).map (mkBarOf ticks) := by
  unfold create segments
  rw [barState_eq_segState]

lemma segments_mem (cfg : DollarBars) (ticks : List Tick) :
    ∀ p ∈ segments cfg ticks,
      p.1 ≤ p.2 ∧ p.2 < ticks.length ∧ closeCond cfg ticks p.1 p.2 :=
  (segState_inv cfg ticks ticks.length).2.2

/-- The partition fact: the concatenation of the emitted bars' runs is
the prefix of the input consumed so far, and the trailing remainder is
everything from `current_bar_start` on. -/
lemma runs_flatten_eq_take (cfg : DollarBars) (ticks : List Tick) :
    (barRuns cfg ticks).flatten = ticks.take (trailingStart cfg ticks) :=
  (segState_inv cfg ticks ticks.length).2.1

lemma runs_partition (cfg : DollarBars) (ticks : List Tick) :
    (barRuns cfg ticks).flatten ++ trailing cfg ticks = ticks := by
  rw [runs_flatten_eq_take]
  exact List.take_append_drop _ _

lemma slice_length (ticks : List Tick) (a b : ℕ) (h1 : a ≤ b)
    (h2 : b < ticks.length) : (slice ticks a b).length = b + 1 - a := by
  unfold slice
  rw [List.length_take, List.length_drop]
  omega

lemma slice_ne_nil (ticks : List Tick) (a b : ℕ) (h1 : a ≤ b)
    (h2 : b < ticks.length) : slice ticks a b ≠ [] := by
  have := slice_length ticks a b h1 h2
  intro hnil
  rw [hnil] at this
  simp at this
  omega

/-! ### Facts about the aggregation inside `mkBar` -/

lemma le_foldl_max (l : List Tick) :
    ∀ a : ℚ, a ≤ l.foldl (fun m u => max m u.price) a := by
  induction l with
  | nil => intro a; exact le_refl a
  | cons x xs ih =>
      intro a
      exact le_trans (le_max_left a x.price) (ih (max a x.price))

lemma mem_le_foldl_max (l : List Tick) :
    ∀ a : ℚ, ∀ t ∈ l, t.price ≤ l.foldl (fun m u => max m u.price) a := by
  induction l with
  | nil => intro a t ht; simp at ht
  | cons x xs ih =>
      intro a t ht
      rcases List.mem_cons.1 ht with h | h
      · subst h
        exact le_trans (le_max_right a t.price) (le_foldl_max xs _)
      · exact ih _ t h

lemma foldl_max_cases (l : List Tick) :
    ∀ a : ℚ, l.foldl (fun m u => max m u.price) a = a ∨
      ∃ t ∈ l, l.foldl (fun m u => max m u.price) a = t.price := by
  induction l with
  | nil => intro a; exact Or.inl rfl
  | cons x xs ih =>
      intro a
      rcases ih (max a x.price) with h | ⟨t, ht, h⟩
      · rcases max_choice a x.price with hm | hm
        · exact Or.inl (by rw [List.foldl_cons, h, hm])
        · exact Or.inr ⟨x, List.mem_cons_self x xs, by rw [List.foldl_cons, h, hm]⟩
      · exact Or.inr ⟨t, List.mem_cons_of_mem x ht, h⟩

lemma maxPrice_ge (l : List Tick) (t : Tick) (ht : t ∈ l) :
    t.price ≤ maxPrice l := by
  cases l with
  | nil => simp at ht
  | cons x xs =>
      rcases List.mem_cons.1 ht with h | h
      · subst h
        exact le_foldl_max xs t.price
      · exact mem_le_foldl_max xs x.price t h

lemma maxPrice_mem (l : List Tick) (h : l ≠ []) :
    maxPrice l ∈ l.map Tick.price := by
  cases l with
  | nil => exact absurd rfl h
  | cons x xs =>
      have hm : maxPrice (x :: xs)
          = xs.foldl (fun m u => max m u.price) x.price := rfl
      rcases foldl_max_cases xs x.price with hc | ⟨t, ht, hc⟩
      · rw [hm, hc]
        exact List.mem_map_of_mem Tick.price (List.mem_cons_self x xs)
      · rw [hm, hc]
        exact List.mem_map_of_mem Tick.price (List.mem_cons_of_mem x ht)

lemma foldl_min_le (l : List Tick) :
    ∀ a : ℚ, l.foldl (fun m u => min m u.price) a ≤ a := by
  induction l with
  | nil => intro a; exact le_refl a
  | cons x xs ih =>
      intro a
      exact le_trans (ih (min a x.price)) (min_le_left a x.price)

lemma foldl_min_le_mem (l : List Tick) :
    ∀ a : ℚ, ∀ t ∈ l, l.foldl (fun m u => min m u.price) a ≤ t.price := by
  induction l with
  | nil => intro a t ht; simp at ht
  | cons x xs ih =>
      intro a t ht
      rcases List.mem_cons.1 ht with h | h
      · subst h
        exact le_trans (foldl_min_le xs _) (min_le_right a t.price)
      · exact ih _ t h

lemma foldl_min_cases (l : List Tick) :
    ∀ a : ℚ, l.foldl (fun m u => min m u.price) a = a ∨
      ∃ t ∈ l, l.foldl (fun m u => min m u.price) a = t.price := by
  induction l with
  | nil => intro a; exact Or.inl rfl
  | cons x xs ih =>
      intro a
      rcases ih (min a x.price) with h | ⟨t, ht, h⟩
      · rcases min_choice a x.price with hm | hm
        · exact Or.inl (by rw [List.foldl_cons, h, hm])
        · exact Or.inr ⟨x, List.mem_cons_self x xs, by rw [List.foldl_cons, h, hm]⟩
      · exact Or.inr ⟨t, List.mem_cons_of_mem x ht, h⟩

lemma minPrice_le (l : List Tick) (t : Tick) (ht : t ∈ l) :
    minPrice l ≤ t.price := by
  cases l with
  | nil => simp at ht
  | cons x xs =>
      rcases List.mem_cons.1 ht with h | h
      · subst h
        exact foldl_min_le xs t.price
      · exact foldl_min_le_mem xs x.price t h

lemma minPrice_mem (l : List Tick) (h : l ≠ []) :
    minPrice l ∈ l.map Tick.price := by
  cases l with
  | nil => exact absurd rfl h
  | cons x xs =>
      have hm : minPrice (x :: xs)
          = xs.foldl (fun m u => min m u.price) x.price := rfl
      rcases foldl_min_cases xs x.price with hc | ⟨t, ht, hc⟩
      · rw [hm, hc]
        exact List.mem_map_of_mem Tick.price (List.mem_cons_self x xs)
      · rw [hm, hc]
        exact List.mem_map_of_mem Tick.price (List.mem_cons_of_mem x ht)

lemma headI_map_price (l : List Tick) (h : l ≠ []) :
    (l.map Tick.price).headI = l.headI.price := by
  cases l with
  | nil => exact absurd rfl h
  | cons x xs => rfl

lemma headI_map_timestamp (l : List Tick) (h : l ≠ []) :
    (l.map Tick.timestamp).headI = l.headI.timestamp := by
  cases l with
  | nil => exact absurd rfl h
  | cons x xs => rfl

lemma getLastD_map_price (l : List Tick) (h : l ≠ []) :
    (l.map Tick.price).getLastD 0 = (l.getLastD default).price := by
  rw [List.getLastD_eq_getLast?, List.getLastD_eq_getLast?, List.getLast?_map]
  rw [List.getLast?_eq_getLast l h]
  rfl

end DollarBars

/-! ## Lemmas about `validate_schema` -/

lemma validate_schema_spec (actual : List (String × PolarsDType)) :
    ∀ expected : List (String × PolarsDType),
      validate_schema actual expected
        = match expected.find?
            (fun p => decide (List.lookup p.1 actual ≠ some p.2)) with
          | none => (true, none)
          | some p => (false, some (offendMsg actual p)) := by
  intro expected
  induction expected with
  | nil => rfl
  | cons q rest ih =>
      obtain ⟨col, expected_type⟩ := q
      cases hl : List.lookup col actual with
      | none =>
          simp [validate_schema, List.find?_cons, hl, offendMsg]
      | some a =>
          by_cases hne : a = expected_type
          · subst hne
            simp [validate_schema, List.find?_cons, hl, ih]
          · simp [validate_schema, List.find?_cons, hl, offendMsg, hne]

lemma validate_schema_true_iff (actual expected : List (String × PolarsDType)) :
    (validate_schema actual expected).1 = true ↔
      ∀ p ∈ expected, List.lookup p.1 actual = some p.2 := by
  rw [validate_schema_spec]
  cases hf : expected.find?
      (fun p => decide (List.lookup p.1 actual ≠ some p.2)) with
  | none =>
      simp only [Bool.true_eq, true_iff]
      intro p hp
      have := List.find?_eq_none.1 hf p hp
      simpa using this
  | some q =>
      simp only [Bool.false_eq_true, false_iff, not_forall]
      refine ⟨q, ?_⟩
      have hq : List.lookup q.1 actual ≠ some q.2 := by
        simpa using List.find?_some hf
      exact ⟨List.mem_of_find?_eq_some hf, hq⟩

lemma lookup_append_single (l : List (String × PolarsDType)) (col c : String)
    (t : PolarsDType) (hne : col ≠ c) :
    List.lookup col (l ++ [(c, t)]) = List.lookup col l := by
  induction l with
  | nil =>
      simp [List.lookup_cons, beq_false_of_ne hne]
  | cons x xs ih =>
      obtain ⟨a, b⟩ := x
      by_cases hca : col = a
      · subst hca
        simp [List.lookup_cons]
      · simp [List.lookup_cons, beq_false_of_ne hca, ih]

/-- Adding an extra column (one not named in `expected`) to the actual
schema does not change the result of `validate_schema`. -/
lemma validate_schema_extra_col (actual expected : List (String × PolarsDType))
    (c : String) (t : PolarsDType) (hc : c ∉ expected.map Prod.fst) :
    validate_schema (actual ++ [(c, t)]) expected
      = validate_schema actual expected := by
  induction expected with
  | nil => rfl
  | cons q rest ih =>
      obtain ⟨col, expected_type⟩ := q
      have hcol : col ≠ c := by
        intro he
        apply hc
        subst he
        exact List.mem_map_of_mem Prod.fst (List.mem_cons_self _ _)
      have hrest : c ∉ rest.map Prod.fst := by
        intro hmem
        apply hc
        rcases List.mem_map.1 hmem with ⟨p, hp, hpe⟩
        exact List.mem_map.2 ⟨p, List.mem_cons_of_mem _ hp, hpe⟩
      have hlk := lookup_append_single actual col c t hcol
      simp only [validate_schema, hlk]
      cases List.lookup col actual with
      | none => rfl
      | some a =>
          split
          · rfl
          · split
            · rfl
            · exact ih hrest

/-! ## Evaluation of the loop on the concrete inputs -/

namespace DollarBars

lemma segments_twoTicks_eval : segments ⟨50000, 1⟩ twoTicks = [(0, 1)] := by
  norm_num [segments, segState, stepSeg, cumDV, cum_dollar_volume, cumsums,
    dollarVolumes, twoTicks, List.range_succ]

lemma create_twoTicks_eval :
    create ⟨50000, 1⟩ twoTicks
      = [{ timestamp := 0, open_ := 100, high := 100, low := 100,
           close := 100, volume := 2000, dollar_volume := 100000 }] := by
  rw [create_eq_map_segments, segments_twoTicks_eval]
  norm_num [mkBarOf, mkBar, slice, twoTicks, cumDV, cum_dollar_volume,
    cumsums, dollarVolumes, maxPrice, minPrice]

lemma barRuns_twoTicks_eval : barRuns ⟨50000, 1⟩ twoTicks = [twoTicks] := by
  unfold barRuns
  rw [segments_twoTicks_eval]
  rfl

lemma trailingStart_oneSmallTick_eval :
    trailingStart ⟨50000, 1⟩ oneSmallTick = 0 := by
  norm_num [trailingStart, segState, stepSeg, cumDV, cum_dollar_volume,
    cumsums, dollarVolumes, oneSmallTick, List.range_succ]

lemma segments_badPriceTicks_eval :
    segments ⟨50, 1⟩ badPriceTicks = [(0, 1)] := by
  norm_num [segments, segState, stepSeg, cumDV, cum_dollar_volume, cumsums,
    dollarVolumes, badPriceTicks, List.range_succ]

lemma barRuns_badPriceTicks_eval :
    barRuns ⟨50, 1⟩ badPriceTicks = [badPriceTicks] := by
  unfold barRuns
  rw [segments_badPriceTicks_eval]
  rfl

lemma trailing_badPriceTicks_eval : trailing ⟨50, 1⟩ badPriceTicks = [] := by
  norm_num [trailing, trailingStart, segState, stepSeg, cumDV,
    cum_dollar_volume, cumsums, dollarVolumes, badPriceTicks, List.range_succ]

lemma segments_degenerate_eval :
    segments (DollarBars.mk 0 0) [⟨100, 1000, 0⟩] = [(0, 0)] := by
  norm_num [segments, segState, stepSeg, cumDV, cum_dollar_volume, cumsums,
    dollarVolumes, List.range_succ]

/-- The fold computing `cumsums`, from an arbitrary starting state. -/
lemma cumsums_spec (l : List ℚ) : ∀ (a : ℚ) (acc : List ℚ),
    l.foldl (fun (p : ℚ × List ℚ) x => (p.1 + x, p.2 ++ [p.1 + x])) (a, acc)
      = (a + l.sum,
         acc ++ (List.range l.length).map (fun k => a + (l.take (k + 1)).sum)) := by
  induction l with
  | nil =>
      intro a acc
      simp
  | cons x xs ih =>
      intro a acc
      show List.foldl (fun (p : ℚ × List ℚ) x => (p.1 + x, p.2 ++ [p.1 + x]))
          (a + x, acc ++ [a + x]) xs
        = (a + (x :: xs).sum,
           acc ++ (List.range (x :: xs).length).map
             (fun k => a + ((x :: xs).take (k + 1)).sum))
      rw [ih (a + x) (acc ++ [a + x])]
      simp only [Prod.mk.injEq]
      constructor
      · rw [List.sum_cons]
        ring
      · rw [List.length_cons, List.range_succ_eq_map, List.map_cons,
          List.map_map, List.append_assoc]
        congr 1
        rw [List.singleton_append]
        congr 1
        · simp
        · refine List.map_congr_left ?_
          intro k hk
          simp [List.take_succ_cons, add_assoc, Function.comp]

/-- `cumsums` produces exactly the prefix sums. -/
lemma cumsums_eq (l : List ℚ) :
    cumsums l = (List.range l.length).map (fun k => (l.take (k + 1)).sum) := by
  unfold cumsums
  rw [cumsums_spec l 0 []]
  simp

/-- `cum_dollar_volume[j]` is the sum of `price*volume` over ticks
`0..j`, for every in-range index. -/
lemma cumDV_eq_sum (ticks : List Tick) (j : ℕ) (h : j < ticks.length) :
    cumDV ticks j = ((dollarVolumes ticks).take (j + 1)).sum := by
  unfold cumDV cum_dollar_volume
  rw [cumsums_eq]
  have hlen : j < (dollarVolumes ticks).length := by
    unfold dollarVolumes
    simpa using h
  simp [List.getD_eq_getElem?_getD, List.getElem?_map, List.getElem?_range,
    hlen]

lemma dollarVolumes_scenarioA :
    dollarVolumes scenarioATicks = List.replicate 100 (100000 : ℚ) := by
  unfold dollarVolumes scenarioATicks
  rw [List.map_map]
  have hfun : ((fun t : Tick => t.price * t.volume) ∘
      (fun k : ℕ => (⟨100, 1000, (k : ℤ)⟩ : Tick))) = fun _ => (100000 : ℚ) := by
    funext k
    show (100 : ℚ) * 1000 = 100000
    norm_num
  rw [hfun, List.map_const']
  simp

lemma cumDV_scenarioA (j : ℕ) (h : j < 100) :
    cumDV scenarioATicks j = ((j : ℚ) + 1) * 100000 := by
  have hlen : j < scenarioATicks.length := by
    simpa [scenarioATicks] using h
  rw [cumDV_eq_sum scenarioATicks j hlen, dollarVolumes_scenarioA]
  rw [List.take_replicate, List.sum_replicate]
  have hmin : min (j + 1) 100 = j + 1 := by omega
  rw [hmin, nsmul_eq_mul]
  push_cast
  ring

lemma mkBarOf_scenarioA_first :
    mkBarOf scenarioATicks (0, 1)
      = { timestamp := 0, open_ := 100, high := 100, low := 100,
          close := 100, volume := 2000, dollar_volume := 100000 } := by
  have hs : slice scenarioATicks 0 1 = [⟨100, 1000, 0⟩, ⟨100, 1000, 1⟩] := rfl
  unfold mkBarOf mkBar
  rw [hs, cumDV_scenarioA 1 (by omega), cumDV_scenarioA 0 (by omega)]
  norm_num [maxPrice, minPrice]

lemma mkBarOf_scenarioA_last :
    mkBarOf scenarioATicks (98, 99)
      = { timestamp := 98, open_ := 100, high := 100, low := 100,
          close := 100, volume := 2000, dollar_volume := 100000 } := by
  have hs : slice scenarioATicks 98 99
      = [⟨100, 1000, 98⟩, ⟨100, 1000, 99⟩] := rfl
  unfold mkBarOf mkBar
  rw [hs, cumDV_scenarioA 99 (by omega), cumDV_scenarioA 98 (by omega)]
  norm_num [maxPrice, minPrice]

set_option maxHeartbeats 4000000 in
set_option maxRecDepth 4000 in
lemma segments_scenarioA_eval :
    segments ⟨50000, 1⟩ scenarioATicks
      = (List.range 50).map (fun k => (2 * k, 2 * k + 1)) := by
  norm_num [segments, segState, stepSeg, cumDV, cum_dollar_volume, cumsums,
    dollarVolumes, scenarioATicks, List.range_succ]

end DollarBars

/-! ## The claims -/

open DollarBars

/-- Claim C1, evaluated on the code: with `threshold = 50000`,
`min_ticks = 1` and two ticks of dollar value 100000 each, the claimed
closing rule (cumulative `price*volume` over all of the bar's constituent
ticks, including its first one, reaches the threshold and the tick count
reaches `min_ticks`) already holds at the very first tick, yet `create`
closes nothing there: `current_cum_dv = cum_dollar_volume[i] -
cum_dollar_volume[current_bar_start]` omits the bar's first tick, and
`(i - current_bar_start) >= min_ticks` undercounts by one, so the only
bar closes at index 1, consumes both ticks, and carries
`dollar_volume = 100000` although the sum of `price*volume` over its
constituent ticks is 200000. -/
theorem c1_closing_rule_code_eval :
    (50000 : ℚ) ≤ cumDV twoTicks 0 ∧
    segments ⟨50000, 1⟩ twoTicks = [(0, 1)] ∧
    create ⟨50000, 1⟩ twoTicks
      = [{ timestamp := 0, open_ := 100, high := 100, low := 100,
           close := 100, volume := 2000, dollar_volume := 100000 }] ∧
    ((slice twoTicks 0 1).map (fun t => t.price * t.volume)).sum
      = 200000 := by
  refine ⟨?_, segments_twoTicks_eval, create_twoTicks_eval, ?_⟩
  · norm_num [cumDV, cum_dollar_volume, cumsums, dollarVolumes, twoTicks]
  · norm_num [DollarBars.slice, twoTicks]

/-- Claim C2: for every configuration and input, the concatenation of the
emitted bars' constituent runs, in order, followed by the dropped
trailing partial segment, is exactly the input; bars and runs are in
bijection (the trailing segment is never emitted as a bar), and the
closing condition never held on the trailing segment. -/
theorem c2_partition_coverage (cfg : DollarBars) (ticks : List Tick) :
    (barRuns cfg ticks).flatten ++ trailing cfg ticks = ticks ∧
    (create cfg ticks).length = (barRuns cfg ticks).length ∧
    ∀ j, trailingStart cfg ticks ≤ j → j < ticks.length →
      ¬ closeCond cfg ticks (trailingStart cfg ticks) j := by
  refine ⟨runs_partition cfg ticks, ?_, no_close_in_trailing cfg ticks⟩
  rw [create_eq_map_segments]
  unfold barRuns
  simp

theorem c2_partition_coverage_witness :
    (barRuns ⟨50000, 1⟩ oneSmallTick).flatten ++ trailing ⟨50000, 1⟩ oneSmallTick
      = oneSmallTick ∧
    ¬ closeCond ⟨50000, 1⟩ oneSmallTick (trailingStart ⟨50000, 1⟩ oneSmallTick) 0 :=
  ⟨(c2_partition_coverage ⟨50000, 1⟩ oneSmallTick).1,
   (c2_partition_coverage ⟨50000, 1⟩ oneSmallTick).2.2 0
     trailingStart_oneSmallTick_eval.le (by decide)⟩

/-- Claim C3, evaluated on the code: on Scenario A (100 ticks, price
100.0, volume 1000, threshold 50000, min_ticks 1) `create` emits 50
bars, not 100; every emitted bar consumed two ticks, with
`volume = 2000` and `dollar_volume = 100000` (not `volume = 1000`). -/
theorem c3_scenario_a_code_eval :
    (create ⟨50000, 1⟩ scenarioATicks).length = 50 ∧
    (create ⟨50000, 1⟩ scenarioATicks).head?
      = some { timestamp := 0, open_ := 100, high := 100, low := 100,
               close := 100, volume := 2000, dollar_volume := 100000 } ∧
    (create ⟨50000, 1⟩ scenarioATicks).getLast?
      = some { timestamp := 98, open_ := 100, high := 100, low := 100,
               close := 100, volume := 2000, dollar_volume := 100000 } := by
  have hc : create ⟨50000, 1⟩ scenarioATicks
      = ((List.range 50).map (fun k => (2 * k, 2 * k + 1))).map
          (mkBarOf scenarioATicks) := by
    rw [create_eq_map_segments, segments_scenarioA_eval]
  refine ⟨by rw [hc]; simp, ?_, ?_⟩
  · rw [hc]
    have h0 : (((List.range 50).map (fun k => (2 * k, 2 * k + 1))).map
          (mkBarOf scenarioATicks)).head?
        = some (mkBarOf scenarioATicks (0, 1)) := rfl
    rw [h0, mkBarOf_scenarioA_first]
  · rw [hc]
    have h99 : (((List.range 50).map (fun k => (2 * k, 2 * k + 1))).map
          (mkBarOf scenarioATicks)).getLast?
        = some (mkBarOf scenarioATicks (98, 99)) := rfl
    rw [h99, mkBarOf_scenarioA_last]

/-- Claim C4: every bar emitted by `create` satisfies both constraints
simultaneously, for every configuration and every input: its
`dollar_volume` field is at least `threshold`, and the number of its
constituent ticks is at least `min_ticks`. -/
theorem c4_bar_invariants (cfg : DollarBars) (ticks : List Tick) :
    (∀ b ∈ create cfg ticks, cfg.threshold ≤ b.dollar_volume) ∧
    (∀ r ∈ barRuns cfg ticks, cfg.min_ticks ≤ (r.length : ℤ)) := by
  constructor
  · intro b hb
    rw [create_eq_map_segments] at hb
    rcases List.mem_map.1 hb with ⟨p, hp, rfl⟩
    have hc : closeCond cfg ticks p.1 p.2 := (segments_mem cfg ticks p hp).2.2
    have hc' : cfg.threshold ≤ cumDV ticks p.2 - cumDV ticks p.1 ∧
        cfg.min_ticks ≤ (p.2 : ℤ) - (p.1 : ℤ) := hc
    exact hc'.1
  · intro r hr
    unfold barRuns at hr
    rcases List.mem_map.1 hr with ⟨p, hp, rfl⟩
    obtain ⟨h1, h2, hc⟩ := segments_mem cfg ticks p hp
    have hc' : cfg.threshold ≤ cumDV ticks p.2 - cumDV ticks p.1 ∧
        cfg.min_ticks ≤ (p.2 : ℤ) - (p.1 : ℤ) := hc
    rw [slice_length ticks p.1 p.2 h1 h2]
    have h3 := hc'.2
    omega

theorem c4_bar_invariants_witness :
    (50000 : ℚ) ≤ (100000 : ℚ) ∧ (1 : ℤ) ≤ (twoTicks.length : ℤ) := by
  constructor
  · exact (c4_bar_invariants ⟨50000, 1⟩ twoTicks).1
      { timestamp := 0, open_ := 100, high := 100, low := 100,
        close := 100, volume := 2000, dollar_volume := 100000 }
      (by rw [create_twoTicks_eval]; exact List.mem_singleton_self _)
  · exact (c4_bar_invariants ⟨50000, 1⟩ twoTicks).2 twoTicks
      (by rw [barRuns_twoTicks_eval]; exact List.mem_singleton_self _)

/-- Claim C5: for every emitted bar, paired with its constituent run:
the run is nonempty, `open` is the price of its first tick, `close` the
price of its last, `timestamp` the timestamp of its first tick, `volume`
the sum of its ticks' volumes, and `high`/`low` are respectively the
maximum/minimum of its ticks' prices (attained, and bounding every
constituent price). -/
theorem c5_ohlc_correctness (cfg : DollarBars) (ticks : List Tick) :
    ∀ pr ∈ (create cfg ticks).zip (barRuns cfg ticks),
      pr.2 ≠ [] ∧
      pr.1.open_ = pr.2.headI.price ∧
      pr.1.close = (pr.2.getLastD default).price ∧
      pr.1.timestamp = pr.2.headI.timestamp ∧
      pr.1.volume = (pr.2.map Tick.volume).sum ∧
      pr.1.high ∈ pr.2.map Tick.price ∧
      pr.1.low ∈ pr.2.map Tick.price ∧
      ∀ t ∈ pr.2, pr.1.low ≤ t.price ∧ t.price ≤ pr.1.high := by
  intro pr hpr
  rw [create_eq_map_segments] at hpr
  unfold barRuns at hpr
  rw [List.zip_map'] at hpr
  rcases List.mem_map.1 hpr with ⟨p, hp, rfl⟩
  obtain ⟨h1, h2, _⟩ := segments_mem cfg ticks p hp
  have hne : slice ticks p.1 p.2 ≠ [] := slice_ne_nil ticks p.1 p.2 h1 h2
  refine ⟨hne, headI_map_price _ hne, getLastD_map_price _ hne,
    headI_map_timestamp _ hne, rfl, maxPrice_mem _ hne, minPrice_mem _ hne, ?_⟩
  intro t ht
  exact ⟨minPrice_le _ t ht, maxPrice_ge _ t ht⟩

theorem c5_ohlc_correctness_witness :
    twoTicks ≠ [] ∧
    (mkBarOf twoTicks (0, 1)).open_ = twoTicks.headI.price ∧
    (mkBarOf twoTicks (0, 1)).close = (twoTicks.getLastD default).price ∧
    (mkBarOf twoTicks (0, 1)).timestamp = twoTicks.headI.timestamp ∧
    (mkBarOf twoTicks (0, 1)).volume = (twoTicks.map Tick.volume).sum ∧
    (mkBarOf twoTicks (0, 1)).high ∈ twoTicks.map Tick.price ∧
    (mkBarOf twoTicks (0, 1)).low ∈ twoTicks.map Tick.price := by
  have h := c5_ohlc_correctness ⟨50000, 1⟩ twoTicks
    (mkBarOf twoTicks (0, 1), twoTicks)
    (by rw [create_eq_map_segments, segments_twoTicks_eval,
          barRuns_twoTicks_eval]
        exact List.mem_singleton_self _)
  exact ⟨h.1, h.2.1, h.2.2.1, h.2.2.2.1, h.2.2.2.2.1, h.2.2.2.2.2.1,
    h.2.2.2.2.2.2.1⟩

/-- Claim C6, evaluated on the code: on empty input `create` produces no
bars, and the `else` branch returns the DataFrame constructed from a dict
whose values are polars *data type objects* passed as column data
(`pl.DataFrame({...})` instead of `pl.DataFrame(schema={...})`) — a
value of a different shape from a bar frame, not an empty bar frame of
the nominal schema. -/
theorem c6_empty_input_code_eval :
    create ⟨100000, 1⟩ [] = [] ∧
    createResult ⟨100000, 1⟩ [] = CreateResult.dtypeValues barSchemaDict ∧
    ∀ bs : List Bar,
      CreateResult.dtypeValues barSchemaDict ≠ CreateResult.df bs := by
  refine ⟨rfl, rfl, ?_⟩
  intro bs h
  exact CreateResult.noConfusion h

/-- Claim C7, evaluated on the code: `create_lazy` is not equivalent to
`create`.  On the two-tick input, `create` emits one aggregated bar while
`create_lazy` returns one row per input tick — the ticks with
`dollar_volume` and `cum_dollar_volume` columns appended — and never
groups anything into bars. -/
theorem c7_create_lazy_code_eval :
    (create ⟨50000, 1⟩ twoTicks).length = 1 ∧
    create_lazy twoTicks
      = [{ price := 100, volume := 1000, timestamp := 0,
           dollar_volume := 100000, cum_dollar_volume := 100000 },
         { price := 100, volume := 1000, timestamp := 1,
           dollar_volume := 100000, cum_dollar_volume := 200000 }] ∧
    (create_lazy twoTicks).length ≠ (create ⟨50000, 1⟩ twoTicks).length := by
  have hlen : (create ⟨50000, 1⟩ twoTicks).length = 1 := by
    rw [create_twoTicks_eval]
    rfl
  refine ⟨hlen, ?_, ?_⟩
  · norm_num [create_lazy, cumsums, twoTicks]
  · rw [hlen]
    norm_num [create_lazy, cumsums, twoTicks]

/-- Claim C8 is false on the code: no per-tick validation exists.  A tick
with `price <= 0` is processed without any error and ends up as a
constituent of an emitted bar. -/
theorem c8_malformed_tick_counterexample :
    (⟨-5, 10, 0⟩ : Tick).price ≤ 0 ∧
    barRuns ⟨50, 1⟩ badPriceTicks = [[⟨-5, 10, 0⟩, ⟨100, 1, 1⟩]] ∧
    trailing ⟨50, 1⟩ badPriceTicks = [] := by
  refine ⟨by norm_num, ?_, trailing_badPriceTicks_eval⟩
  rw [barRuns_badPriceTicks_eval]
  rfl

/-- Claim C8, amended: a tick with `price <= 0` or `volume < 0` is not
rejected; processing performs no validation and folds every input tick
into the bar accumulation (it ends up in an emitted bar's run or in the
trailing partial segment). -/
theorem c8_amended_malformed_ticks_folded (cfg : DollarBars)
    (ticks : List Tick) (t : Tick) (hmem : t ∈ ticks)
    (hbad : t.price ≤ 0 ∨ t.volume < 0) :
    t ∈ (barRuns cfg ticks).flatten ++ trailing cfg ticks := by
  rw [runs_partition]
  exact hmem

theorem c8_amended_malformed_ticks_folded_witness :
    (⟨-5, 10, 0⟩ : Tick) ∈ (barRuns ⟨50, 1⟩ badPriceTicks).flatten ++
      trailing ⟨50, 1⟩ badPriceTicks :=
  c8_amended_malformed_ticks_folded ⟨50, 1⟩ badPriceTicks ⟨-5, 10, 0⟩
    (List.mem_cons_self _ _) (Or.inl (by norm_num))

/-- Claim C9 is false on the code: `__init__` performs no validation at
all.  Constructing with `min_ticks = 0` (< 1) succeeds, the value is
stored unchanged (not clamped), and the resulting builder runs `create`
normally and emits bars. -/
theorem c9_invalid_config_counterexample :
    (DollarBars.mk 100000 0).min_ticks = 0 ∧
    (DollarBars.mk (-1) 0).threshold = -1 ∧
    create (DollarBars.mk 0 0) [⟨100, 1000, 0⟩]
      = [{ timestamp := 0, open_ := 100, high := 100, low := 100,
           close := 100, volume := 1000, dollar_volume := 0 }] := by
  refine ⟨rfl, rfl, ?_⟩
  rw [create_eq_map_segments, segments_degenerate_eval]
  norm_num [mkBarOf, mkBar, DollarBars.slice, cumDV, cum_dollar_volume,
    cumsums, dollarVolumes, maxPrice, minPrice]

/-- Claim C9, amended: construction validates nothing — any `min_ticks`
(including values below 1) and any `threshold` (including non-positive
ones) are accepted and stored exactly as given, and a degenerate
configuration (`threshold <= 0`, `min_ticks <= 0`) drives the loop as a
normal configuration, closing a one-tick bar immediately. -/
theorem c9_amended_no_construction_validation (threshold : ℚ)
    (min_ticks : ℤ) :
    (DollarBars.mk threshold min_ticks).threshold = threshold ∧
    (DollarBars.mk threshold min_ticks).min_ticks = min_ticks ∧
    (threshold ≤ 0 → min_ticks ≤ 0 → ∀ t : Tick,
      barRuns (DollarBars.mk threshold min_ticks) [t] = [[t]]) := by
  refine ⟨rfl, rfl, ?_⟩
  intro hth hmt t
  have h1 : segments (DollarBars.mk threshold min_ticks) [t] = [(0, 0)] := by
    unfold segments segState
    simp [stepSeg, List.range_succ, sub_self, hth, hmt]
  unfold barRuns
  rw [h1]
  rfl

theorem c9_amended_no_construction_validation_witness :
    barRuns (DollarBars.mk 0 0) [⟨100, 1000, 5⟩] = [[⟨100, 1000, 5⟩]] :=
  (c9_amended_no_construction_validation 0 0).2.2 (le_refl 0) (le_refl 0)
    ⟨100, 1000, 5⟩

/-- Claim C10: `validate_schema` succeeds (returns `(True, None)`) exactly
when every expected column is present in the actual schema with exactly
the expected type; the returned value is always determined by the first
offending expected column in iteration order (missing reported as
`Missing column`, a wrong type as `Type mismatch`, so a missing column is
reported before a type mismatch of a later column); and a column present
in the table but absent from the expected schema never changes the
result. -/
theorem c10_validate_schema_correct
    (actual expected : List (String × PolarsDType)) (c : String)
    (t : PolarsDType) (hc : c ∉ expected.map Prod.fst) :
    (validate_schema actual expected = (true, none) ↔
      ∀ p ∈ expected, List.lookup p.1 actual = some p.2) ∧
    validate_schema actual expected
      = (match expected.find?
            (fun p => decide (List.lookup p.1 actual ≠ some p.2)) with
         | none => (true, none)
         | some p => (false, some (offendMsg actual p))) ∧
    validate_schema (actual ++ [(c, t)]) expected
      = validate_schema actual expected := by
  have hspec := validate_schema_spec actual expected
  refine ⟨?_, hspec, validate_schema_extra_col actual expected c t hc⟩
  rw [← validate_schema_true_iff actual expected]
  cases hf : expected.find?
      (fun p => decide (List.lookup p.1 actual ≠ some p.2)) with
  | none =>
      rw [hf] at hspec
      rw [hspec]
      simp
  | some q =>
      rw [hf] at hspec
      rw [hspec]
      simp

theorem c10_validate_schema_correct_witness :
    (validate_schema [("price", PolarsDType.float64)]
        [("price", PolarsDType.float64), ("ts", PolarsDType.datetime)]
        = (true, none) ↔
      ∀ p ∈ [("price", PolarsDType.float64), ("ts", PolarsDType.datetime)],
        List.lookup p.1 [("price", PolarsDType.float64)] = some p.2) ∧
    validate_schema [("price", PolarsDType.float64)]
        [("price", PolarsDType.float64), ("ts", PolarsDType.datetime)]
      = (match [("price", PolarsDType.float64),
            ("ts", PolarsDType.datetime)].find?
            (fun p => decide (List.lookup p.1
              [("price", PolarsDType.float64)] ≠ some p.2)) with
         | none => (true, none)
         | some p => (false, some (offendMsg [("price", PolarsDType.float64)] p))) ∧
    validate_schema ([("price", PolarsDType.float64)] ++
        [("volume", PolarsDType.int64)])
        [("price", PolarsDType.float64), ("ts", PolarsDType.datetime)]
      = validate_schema [("price", PolarsDType.float64)]
          [("price", PolarsDType.float64), ("ts", PolarsDType.datetime)] :=
  c10_validate_schema_correct [("price", PolarsDType.float64)]
    [("price", PolarsDType.float64), ("ts", PolarsDType.datetime)]
    "volume" PolarsDType.int64 (by decide)

